import Mathlib

/-!
Verification of the `test::EventLoop` async-test event loop
(`asyncTest-private.hpp`).

The C++ class is shallowly embedded below: the loop's member variables become
the fields of `LoopState`, each member function becomes a Lean function on
`LoopState`, and a C++ `throw` becomes an `Res.exn` result carrying the thrown
message.  Wall-clock time (`getTimeMs()`) is passed in explicitly as a `now`
parameter; the loop's sleeping is modelled as exact (an item is executed once
it is the earliest due item), which abstracts only real-time behaviour, not
any state transition.  Terminal colours are modelled as the non-tty default
(all colour strings empty, as in the class's initial field values).
-/

namespace AsyncTest

/-- `typedef long long Ts` : millisecond timestamps. -/
abbrev Ts := Int

/-- `ASYNC_COMPLETE_NOT` -/
def ASYNC_COMPLETE_NOT : Int := 0
/-- `ASYNC_COMPLETE_SUCCESS` -/
def ASYNC_COMPLETE_SUCCESS : Int := 1
/-- `ASYNC_COMPLETE_ERROR` -/
def ASYNC_COMPLETE_ERROR : Int := 2
/-- `ASYNC_COMPLETE_ABORTED` -/
def ASYNC_COMPLETE_ABORTED : Int := 3

/-- A command a user callback can issue against the loop.  The claims under
verification only need callbacks that resolve markers (`test.done(tag)`) and
callbacks that call `loop.abort()`, so those are the constructors. -/
inductive Cmd where
  | done (tag : String)
  | abort
  deriving Repr, DecidableEq

/-- A scheduled action (`SchedItemBase`): either the timeout handler lambda
that `addDoneToLoop` schedules for a marker, or a user callback scheduled via
`schedCall`, given as the list of commands it performs. -/
inductive Action where
  | timeoutOf (tag : String)
  | user (cmds : List Cmd)
  deriving Repr, DecidableEq

/-- `Action.user` discriminator. -/
def Action.isUser : Action → Bool
  | Action.user _ => true
  | Action.timeoutOf _ => false

/-- One entry of the sched queue (`SchedQueue` = `std::multimap<Ts, item>`).
`id` is a unique identifier standing for the multimap iterator, so that
`mSchedQueue.erase(iterator)` can be modelled as erasure by id. -/
structure SchedEntry where
  ts : Ts
  id : Nat
  act : Action
  deriving Repr, DecidableEq

/-- `DoneItem`: a done() marker.  `schedItem` holds the id of its timeout
entry in the sched queue (the `SchedQueue::iterator schedItem` member). -/
structure DoneItem where
  tag : String
  complete : Int := 0
  deadline : Ts := -1
  order : Int := 0
  schedItem : Nat := 0
  deriving Repr, DecidableEq

/-- The `EventLoop` member state.  Field-by-field image of the C++ members:
`mLastOrderTs`, `mLastOrderedDoneNo`, `mNextEventTs`, `jitterPct`,
`mSchedQueue`, `mDones` (kept as a list sorted by tag, the `std::map`
iteration order), `defaultDoneTimeout`, `mComplete`, `mErrorTag`, `errorMsg`.
`nextId` is the id supply for sched-queue entries (standing for iterator
identity).  `resolvedOrdered` is a specification-only history variable with
no C++ counterpart: it records, chronologically, the tags of the markers
with nonzero `order` that `done()` successfully resolved; the semantics
never reads it. -/
structure LoopState where
  lastOrderTs : Ts := 0
  lastOrderedDoneNo : Int := 0
  nextEventTs : Ts := 0xFFFFFFFFFFFFFFF
  jitterPct : Int := 50
  schedQueue : List SchedEntry := []
  dones : List DoneItem := []
  defaultDoneTimeout : Int := 2000
  complete : Int := 0
  errorTag : String := ""
  errorMsg : String := ""
  nextId : Nat := 0
  resolvedOrdered : List String := []
  deriving Repr, DecidableEq

/-- Exceptions (`throw std::runtime_error`), distinguished by throw site:
the direct "Nothing to run" throw in `run()`, the `usageError` throw, and the
`doError` throw.  `msgOf` recovers the thrown message. -/
inductive Exn where
  | nothingToRun
  | usage (msg : String)
  | fromDoError (msg : String)
  deriving Repr, DecidableEq

/-- The message carried by a thrown exception. -/
def Exn.msgOf : Exn → String
  | Exn.nothingToRun => "Nothing to run: not even a single function call has been scheduled"
  | Exn.usage m => m
  | Exn.fromDoError m => m

/-- Result of running a (possibly throwing) member function: normal return
with the new state, or an exception propagating with the state at the throw. -/
inductive Res where
  | ok (s : LoopState)
  | exn (e : Exn) (s : LoopState)
  deriving Repr, DecidableEq

/-- The state a `Res` carries, whether returned or thrown from. -/
def Res.state : Res → LoopState
  | Res.ok s => s
  | Res.exn _ s => s

/-- `Res.ok` discriminator. -/
def Res.isOk : Res → Bool
  | Res.ok _ => true
  | Res.exn _ _ => false

/-- `std::map::find` on the tag-keyed marker map. -/
def findDone : List DoneItem → String → Option DoneItem
  | [], _ => none
  | d :: rest, tag => if d.tag = tag then some d else findDone rest tag

/-- Update (through the found iterator) the single map entry with this tag. -/
def updateDone : List DoneItem → String → (DoneItem → DoneItem) → List DoneItem
  | [], _, _ => []
  | d :: rest, tag, f => if d.tag = tag then f d :: rest else d :: updateDone rest tag f

/-- `std::map::insert`: keep the list sorted by tag (only called on a tag not
yet present). -/
def insertDone : List DoneItem → DoneItem → List DoneItem
  | [], it => [it]
  | d :: rest, it => if it.tag < d.tag then it :: d :: rest else d :: insertDone rest it

/-- `mSchedQueue.erase(iterator)`, with the iterator stood for by its id. -/
def eraseById (q : List SchedEntry) (i : Nat) : List SchedEntry :=
  q.filter (fun e => e.id ≠ i)

/-- `mSchedQueue.begin()` on a non-empty multimap: the earliest-timestamp
entry, ties resolved by insertion order, together with the rest of the queue. -/
def popEarliest : List SchedEntry → Option (SchedEntry × List SchedEntry)
  | [] => none
  | e :: rest =>
    match popEarliest rest with
    | none => some (e, rest)
    | some (m, rest') => if e.ts ≤ m.ts then some (e, rest) else some (m, e :: rest')

/-- `DoneItem::setVal(name, val)`. -/
def setVal (item : DoneItem) (name : String) (val : Int) : Except String DoneItem :=
  if name = "timeout" ∨ name = "tmo" then Except.ok { item with deadline := val }
  else if name = "order" then Except.ok { item with order := val }
  else Except.error ("Unknown property '" ++ name ++ "'' of done() with tag '" ++ item.tag ++ "'")

/-- `EventLoop::usageError(msg)`: records the message and throws. -/
def usageError (s : LoopState) (msg : String) : Res :=
  Res.exn (Exn.usage msg) { s with errorMsg := msg }

/-- `EventLoop::doError(msg, tag, noThrow)`. -/
def doError (s : LoopState) (msg tag : String) (noThrow : Bool) : Res :=
  if s.complete = ASYNC_COMPLETE_ERROR then Res.ok s
  else
    let s1 := { s with complete := ASYNC_COMPLETE_ERROR }
    if tag ≠ "" then
      match findDone s1.dones tag with
      | none => usageError s1 ("error() called with unknown tag: " ++ tag)
      | some _ =>
        let emsg := "done('" ++ tag ++ "'): " ++ msg
        let s2 := { s1 with
          errorTag := tag
          errorMsg := emsg
          dones := updateDone s1.dones tag
            (fun it => { it with complete := ASYNC_COMPLETE_ERROR }) }
        if noThrow then Res.ok s2 else Res.exn (Exn.fromDoError emsg) s2
    else
      let s2 := { s1 with errorMsg := msg, errorTag := tag }
      if noThrow then Res.ok s2 else Res.exn (Exn.fromDoError msg) s2

/-- `EventLoop::abort()`. -/
def abortLoop (s : LoopState) : LoopState :=
  if s.complete ≠ 0 then s else { s with complete := ASYNC_COMPLETE_ABORTED }

/-- `EventLoop::done(tag)`. -/
def doneFn (s : LoopState) (tag : String) : Res :=
  match findDone s.dones tag with
  | none => usageError s ("Unknown done() tag '" ++ tag ++ "'")
  | some it =>
    if it.complete ≠ 0 then
      doError s "done() already resloved, can't resolve again" tag true
    else
      let s1 := { s with schedQueue := eraseById s.schedQueue it.schedItem }
      if it.order ≠ 0 ∧ it.order ≠ s1.lastOrderedDoneNo + 1 then
        let s2 := { s1 with lastOrderedDoneNo := s1.lastOrderedDoneNo + 1 }
        doError s2 ("Did not resolve in expected order. Expected: " ++ toString it.order ++
          ", actual: " ++ toString s2.lastOrderedDoneNo) tag true
      else
        let s2 := if it.order ≠ 0 then
            { s1 with
              lastOrderedDoneNo := s1.lastOrderedDoneNo + 1
              resolvedOrdered := s1.resolvedOrdered ++ [tag] }
          else s1
        Res.ok { s2 with
          dones := updateDone s2.dones tag
            (fun d => { d with complete := ASYNC_COMPLETE_SUCCESS }) }

/-- Body of the timeout-handler lambda scheduled by `addDoneToLoop`. -/
def timeoutHandler (s : LoopState) (tag : String) : Res :=
  match findDone s.dones tag with
  | none => doError s ("Internal error: done() timeout handler could not find done item" ++ tag)
      tag false
  | some it =>
    if it.complete ≠ 0 then Res.ok s
    else doError s "Timeout" tag true

/-- `EventLoop::schedHandler(handler, ts)`: insert into the multimap (a fresh
id stands for the returned iterator) and update `mNextEventTs`. -/
def schedHandler (s : LoopState) (act : Action) (ts : Ts) : LoopState × Nat :=
  let s1 := { s with schedQueue := s.schedQueue ++ [⟨ts, s.nextId, act⟩], nextId := s.nextId + 1 }
  (if ts < s1.nextEventTs then { s1 with nextEventTs := ts } else s1, s.nextId)

/-- `EventLoop::schedCall(func, after, aJitterPct)`.  `now` is `getTimeMs()`
and `r` the (non-negative) value of `rand()`.  Returns `none` exactly when the
C++ would evaluate `rand() % 0` (the computed jitter magnitude `j` is zero
while the jitter branch is taken), which is undefined behaviour. -/
def schedCall (s : LoopState) (cmds : List Cmd) (now : Ts) (r : Int)
    (after : Int := 100) (aJitterPct : Int := -1) : Option LoopState :=
  let pct := if aJitterPct < 0 then s.jitterPct else aJitterPct
  if after < 0 then
    let mag := -after
    let lastOrderTs := if s.lastOrderTs = 0 then now else s.lastOrderTs
    let ts := lastOrderTs + mag
    if pct ≠ 0 then
      let j := (mag * pct) / 100
      if j = 0 then none
      else
        let ts := ts + ((r % (2 * j)) - j)
        some (schedHandler { s with lastOrderTs := ts } (Action.user cmds) ts).1
    else
      some (schedHandler { s with lastOrderTs := ts } (Action.user cmds) ts).1
  else
    let ts := now + after
    if pct ≠ 0 then
      let j := (after * pct) / 100
      if j = 0 then none
      else
        let ts := ts + ((r % (2 * j)) - j)
        some (schedHandler s (Action.user cmds) ts).1
    else
      some (schedHandler s (Action.user cmds) ts).1

/-- `EventLoop::addDoneToMap(item)`. -/
def addDoneToMap (s : LoopState) (item : DoneItem) : Res :=
  let item := if item.deadline < 0 then { item with deadline := s.defaultDoneTimeout } else item
  if (findDone s.dones item.tag).isSome then
    usageError s ("addDone: Duplicate done() tag '" ++ item.tag ++ "'")
  else
    Res.ok { s with dones := insertDone s.dones item }

/-- `EventLoop::addDoneToLoop(item)`: schedule the marker's timeout handler
at its deadline and remember the entry's id in the marker. -/
def addDoneToLoop (s : LoopState) (tag : String) : LoopState :=
  match findDone s.dones tag with
  | none => s
  | some it =>
    let p := schedHandler s (Action.timeoutOf tag) it.deadline
    { p.1 with dones := updateDone p.1.dones tag (fun d => { d with schedItem := p.2 }) }

/-- `EventLoop::addDone(item)`: register and immediately arm the marker. -/
def addDone (s : LoopState) (item : DoneItem) : Res :=
  match addDoneToMap s item with
  | Res.ok s1 => Res.ok (addDoneToLoop s1 item.tag)
  | r => r

/-- The deadline shift `item.second.deadline += now` of `addAllDonesToLoop`. -/
def shiftDeadline (now : Ts) (d : DoneItem) : DoneItem := { d with deadline := d.deadline + now }

/-- The loop body of `addAllDonesToLoop`, iterating over the given tags. -/
def anchorDones (now : Ts) : LoopState → List String → LoopState
  | s, [] => s
  | s, tag :: rest =>
    let s1 := { s with dones := updateDone s.dones tag (shiftDeadline now) }
    anchorDones now (addDoneToLoop s1 tag) rest

/-- `EventLoop::addAllDonesToLoop()`: anchor every marker's relative deadline
to `now` and arm its timeout handler. -/
def addAllDonesToLoop (s : LoopState) (now : Ts) : LoopState :=
  anchorDones now s (s.dones.map DoneItem.tag)

/-- The `EventLoop` default constructor: registers the `"_default"` marker. -/
def mkEventLoop (timeout : Int := 2000) : LoopState :=
  let s : LoopState := { defaultDoneTimeout := timeout }
  match addDoneToMap s { tag := "_default" } with
  | Res.ok s1 => s1
  | Res.exn _ s1 => s1

/-- Execute one user-callback command. -/
def execCmd (s : LoopState) : Cmd → Res
  | Cmd.done tag => doneFn s tag
  | Cmd.abort => Res.ok (abortLoop s)

/-- Execute a user callback: its commands in order; an exception escapes. -/
def execCmds : LoopState → List Cmd → Res
  | s, [] => Res.ok s
  | s, c :: cs =>
    match execCmd s c with
    | Res.ok s1 => execCmds s1 cs
    | r => r

/-- Execute a popped sched-queue action (`(*call)()`). -/
def execAction (s : LoopState) : Action → Res
  | Action.timeoutOf tag => timeoutHandler s tag
  | Action.user cmds => execCmds s cmds

/-- The `while` loop of `run()`.  Each iteration checks the loop condition
(`!mSchedQueue.empty() && !mComplete`), pops the earliest item, executes it,
and breaks if `errorMsg` is non-empty.  `fuel` bounds the iteration count;
`run` supplies the queue length, which suffices because execution never grows
the queue (no command schedules new items). -/
def runLoop : Nat → LoopState → Res
  | 0, s => Res.ok s
  | fuel + 1, s =>
    if s.complete ≠ 0 then Res.ok s
    else
      match popEarliest s.schedQueue with
      | none => Res.ok s
      | some (e, rest) =>
        match execAction { s with schedQueue := rest } e.act with
        | Res.ok s1 => if s1.errorMsg ≠ "" then Res.ok s1 else runLoop fuel s1
        | r => r

/-- `EventLoop::run()`: throw if nothing is scheduled, anchor and arm all
markers, drive the loop, and declare success if no terminal state was set. -/
def run (s : LoopState) (now : Ts) : Res :=
  if s.schedQueue = [] then Res.exn Exn.nothingToRun s
  else
    let s1 := addAllDonesToLoop s now
    match runLoop s1.schedQueue.length s1 with
    | Res.ok s2 => Res.ok (if s2.complete = 0 then { s2 with complete := ASYNC_COMPLETE_SUCCESS } else s2)
    | r => r

/-- The name array of `completeCodeToString`. -/
def completeStrings : List String :=
  ["ASYNC_COMPLETE_NOT", "ASYNC_COMPLETE_SUCCESS", "ASYNC_COMPLETE_ERROR"]

/-- `EventLoop::completeCodeToString(code)`: `Except.error` is the validity
throw; `Except.ok (completeStrings.get? idx)` is the array read, where a
`none` payload means the read is past the end of the array (out of bounds). -/
def completeCodeToString (code : Int) : Except String (Option String) :=
  if code < 0 ∨ code > (completeStrings.length : Int) then
    Except.error ("Invalid code value " ++ toString code)
  else
    Except.ok (completeStrings.get? code.toNat)

/-- Does `hay` contain `needle` as a contiguous substring? -/
def strContainsSub (hay needle : String) : Bool :=
  go hay.toList
where
  go : List Char → Bool
    | [] => decide (needle.toList = [])
    | c :: rest => needle.toList.isPrefixOf (c :: rest) || go rest

/-! ## Concrete states used to instantiate the claim theorems -/

/-- A freshly constructed loop state with no markers and nothing scheduled. -/
def c4base : LoopState := { nextId := 0 }

/-- State after the first chained call of the C4 scenario (magnitude 50,
jitter disabled, current time 1000). -/
def c4s1 : LoopState := (schedCall c4base [] 1000 7 (-50) 0).getD c4base

/-- State after the second chained call of the C4 scenario (magnitude 30,
jitter disabled, current time 99999 — deliberately unrelated). -/
def c4s2 : LoopState := (schedCall c4s1 [] 99999 3 (-30) 0).getD c4base

/-- A loop state already in the terminal `Error` state, with a marker `"t"`. -/
def c8err : LoopState := { complete := ASYNC_COMPLETE_ERROR, dones := [{ tag := "t" }] }

/-- A loop state already in the terminal `Aborted` state, with a marker `"t"`. -/
def c8ab : LoopState := { complete := ASYNC_COMPLETE_ABORTED, dones := [{ tag := "t" }] }

/-- Is this result the propagation of the "Nothing to run" throw? -/
def Res.isNothingExn : Res → Bool
  | Res.exn Exn.nothingToRun _ => true
  | _ => false

/-- A loop state with an empty marker registry (as after the vector
constructor applied to no items). -/
def c2base : LoopState := { defaultDoneTimeout := 2000 }

/-- The loop produced by `addDone`-registering marker `"x"` on `c2base`:
registration immediately schedules the marker's timeout item. -/
def c2armed : LoopState := (addDone c2base { tag := "x" }).state

/-- C3 scenario: a default loop whose single scheduled callback resolves the
`"_default"` marker twice. -/
def c3s0 : LoopState :=
  { dones := [{ tag := "_default", deadline := 2000 }]
    schedQueue := [⟨10, 0, Action.user [Cmd.done "_default", Cmd.done "_default"]⟩]
    nextId := 1 }

/-- C5 scenario: marker `"x"` with timeout 500 that is never resolved, plus
one (do-nothing) scheduled callback so that `run()` starts. -/
def c5s0 : LoopState :=
  { dones := [{ tag := "x", deadline := 500 }]
    schedQueue := [⟨10, 0, Action.user []⟩]
    nextId := 1 }

/-- C7 scenario: the first scheduled callback aborts the loop while a second
callback (which would resolve `"_default"`) is still pending. -/
def c7s0 : LoopState :=
  { dones := [{ tag := "_default", deadline := 2000 }]
    schedQueue := [⟨10, 0, Action.user [Cmd.abort]⟩, ⟨20, 1, Action.user [Cmd.done "_default"]⟩]
    nextId := 2 }

/-- C1 scenario: markers `"a"` (`order` 1) and `"b"` (`order` 2), with a
callback that resolves `"b"` before `"a"`. -/
def c1bad : LoopState :=
  { dones := [{ tag := "a", deadline := 2000, order := 1 },
              { tag := "b", deadline := 2000, order := 2 }]
    schedQueue := [⟨10, 0, Action.user [Cmd.done "b", Cmd.done "a"]⟩]
    nextId := 1 }

/-- C1 witness scenario: marker `"a"` with `order` 1, resolved by the only
scheduled callback; the run succeeds. -/
def c1good : LoopState :=
  { dones := [{ tag := "a", deadline := 2000, order := 1 }]
    schedQueue := [⟨10, 0, Action.user [Cmd.done "a"]⟩]
    nextId := 1 }

/-- The `"a"` marker of `c1good` as it stands when that run finishes. -/
def c1aDone : DoneItem :=
  { tag := "a", complete := ASYNC_COMPLETE_SUCCESS, deadline := 2000, order := 1, schedItem := 1 }

/-- A well-formed pre-run state: freshly constructed counters and history,
no terminal state, no recorded error, all markers Pending with pairwise
distinct tags, and a queue of user callbacks with pairwise distinct ids below
the id supply.  Every state built from the constructors, `setVal` options and
`schedCall` satisfies this. -/
def WellFormed (s : LoopState) : Prop :=
  s.lastOrderedDoneNo = 0 ∧ s.resolvedOrdered = [] ∧ s.complete = 0 ∧ s.errorMsg = "" ∧
  (∀ it ∈ s.dones, it.complete = 0) ∧
  (s.dones.map DoneItem.tag).Nodup ∧
  (∀ e ∈ s.schedQueue, e.act.isUser = true ∧ e.id < s.nextId) ∧
  (s.schedQueue.map SchedEntry.id).Nodup

/-- The invariant body maintained across loop iterations while the state has
not turned `Error`: the ordered-resolution counter equals the length of the
resolution history; a set error message implies a terminal error; the loop
state was not declared `Success` inside the loop; marker tags and queue ids
stay pairwise distinct; every marker is Pending or `Success`, every
successfully resolved ordered marker with `order` k sits at position k of the
resolution history, and every Pending marker still has its timeout entry in
the queue. -/
def Good (s : LoopState) : Prop :=
  s.lastOrderedDoneNo = (s.resolvedOrdered.length : Int) ∧
  (s.complete = 0 → s.errorMsg = "") ∧
  s.complete ≠ ASYNC_COMPLETE_SUCCESS ∧
  (s.dones.map DoneItem.tag).Nodup ∧
  (s.schedQueue.map SchedEntry.id).Nodup ∧
  (∀ it ∈ s.dones, it.complete = 0 ∨ it.complete = ASYNC_COMPLETE_SUCCESS) ∧
  (∀ it ∈ s.dones, it.complete = ASYNC_COMPLETE_SUCCESS → it.order ≠ 0 →
    ∃ k : Nat, it.order = (k : Int) + 1 ∧ s.resolvedOrdered.get? k = some it.tag) ∧
  (∀ it ∈ s.dones, it.complete = 0 →
    ∃ e ∈ s.schedQueue, e.id = it.schedItem ∧ e.act = Action.timeoutOf it.tag)

/-- The loop invariant: either the state already turned terminal `Error`
(absorbing: the run can then never end in `Success`), or `Good` holds. -/
def Inv (s : LoopState) : Prop := s.complete = ASYNC_COMPLETE_ERROR ∨ Good s

/-! ## Basic facts about the scheduling helpers -/

/-- `schedHandler` appends the new entry at the end of the queue. -/
theorem schedHandler_fst_schedQueue (s : LoopState) (a : Action) (ts : Ts) :
    ((schedHandler s a ts).1).schedQueue = s.schedQueue ++ [⟨ts, s.nextId, a⟩] := by
  simp only [schedHandler]
  split <;> rfl

/-- `schedHandler` does not touch the ordered-scheduling cursor. -/
theorem schedHandler_fst_lastOrderTs (s : LoopState) (a : Action) (ts : Ts) :
    ((schedHandler s a ts).1).lastOrderTs = s.lastOrderTs := by
  simp only [schedHandler]
  split <;> rfl

/-! ## Claim theorems -/

/-- C4: with jitter disabled, two successive chained (`delay < 0`) `schedCall`s
of magnitudes `m1` then `m2` schedule their callbacks at exactly `start + m1`
and `start + m1 + m2`, where `start` is the cursor value at the first chained
call (the current time on first use); the timestamps are computed from the
loop-global cursor, not from the current time (`now2` does not occur in the
conclusion), and the cursor is advanced to the scheduled result. -/
theorem claim_C4 (s : LoopState) (cmds1 cmds2 : List Cmd) (now1 now2 : Ts)
    (r1 r2 m1 m2 : Int) (s1 s2 : LoopState)
    (hcur : (0:Int) ≤ s.lastOrderTs) (hnow : (0:Int) < now1) (hm1 : 0 < m1) (hm2 : 0 < m2)
    (h1 : schedCall s cmds1 now1 r1 (-m1) 0 = some s1)
    (h2 : schedCall s1 cmds2 now2 r2 (-m2) 0 = some s2) :
    (s1.schedQueue.getLast?.map SchedEntry.ts =
       some ((if s.lastOrderTs = 0 then now1 else s.lastOrderTs) + m1)) ∧
    (s2.schedQueue.getLast?.map SchedEntry.ts =
       some ((if s.lastOrderTs = 0 then now1 else s.lastOrderTs) + m1 + m2)) ∧
    s1.lastOrderTs = (if s.lastOrderTs = 0 then now1 else s.lastOrderTs) + m1 ∧
    s2.lastOrderTs = (if s.lastOrderTs = 0 then now1 else s.lastOrderTs) + m1 + m2 := by
  have hstart : (0:Int) < (if s.lastOrderTs = 0 then now1 else s.lastOrderTs) + m1 := by
    split <;> omega
  simp only [schedCall] at h1 h2
  norm_num at h1 h2
  rw [if_pos hm1, Option.some.injEq] at h1
  subst h1
  simp only [schedHandler_fst_lastOrderTs] at h2 ⊢
  rw [if_pos hm2] at h2
  rw [if_neg (ne_of_gt hstart)] at h2
  rw [Option.some.injEq] at h2
  subst h2
  refine ⟨?_, ?_, trivial, ?_⟩
  · rw [schedHandler_fst_schedQueue, List.getLast?_concat]
    rfl
  · rw [schedHandler_fst_schedQueue, List.getLast?_concat]
    rfl
  · simp only [schedHandler_fst_lastOrderTs]

/-- C4 witness: the chain 50 then 30 from time 1000 schedules at 1050 and
1080 and leaves the cursor at 1080, independently of the second call's
current time (99999). -/
theorem claim_C4_witness :
    (c4s1.schedQueue.getLast?.map SchedEntry.ts = some 1050) ∧
    (c4s2.schedQueue.getLast?.map SchedEntry.ts = some 1080) ∧
    c4s1.lastOrderTs = 1050 ∧ c4s2.lastOrderTs = 1080 :=
  claim_C4 c4base [] [] 1000 99999 7 3 50 30 c4s1 c4s2 (by decide) (by decide)
    (by decide) (by decide) (by decide) (by decide)

/-- C6 counterexample: the option name `"tmo"`, which is neither `"timeout"`
nor `"order"`, is silently accepted by `setVal` (it sets the timeout),
refuting that exactly the two names `"timeout"` and `"order"` are
recognized. -/
theorem claim_C6_counterexample :
    setVal { tag := "d" } "tmo" 123 = Except.ok { tag := "d", deadline := 123 } ∧
    "tmo" ≠ "timeout" ∧ "tmo" ≠ "order" := by
  refine ⟨rfl, by decide, by decide⟩

/-- C6 (amended): marker-option setting recognizes exactly the names
`"timeout"`, `"tmo"` and `"order"`; every other name raises a usage error
whose message names the offending option key and the marker's tag. -/
theorem claim_C6 :
    (∀ (item : DoneItem) (name : String) (val : Int),
        name ≠ "timeout" → name ≠ "tmo" → name ≠ "order" →
        setVal item name val =
          Except.error ("Unknown property '" ++ name ++ "'' of done() with tag '" ++
            item.tag ++ "'")) ∧
    (∀ (item : DoneItem) (val : Int),
        setVal item "timeout" val = Except.ok { item with deadline := val }) ∧
    (∀ (item : DoneItem) (val : Int),
        setVal item "tmo" val = Except.ok { item with deadline := val }) ∧
    (∀ (item : DoneItem) (val : Int),
        setVal item "order" val = Except.ok { item with order := val }) := by
  refine ⟨fun item name val h1 h2 h3 => ?_, fun item val => ?_, fun item val => ?_,
    fun item val => ?_⟩ <;> simp [setVal, *]

/-- C6 witness: the unknown option name `"bogus"` on a marker tagged `"d"`
raises the usage error naming both. -/
theorem claim_C6_witness :
    setVal { tag := "d" } "bogus" 1 =
      Except.error ("Unknown property '" ++ "bogus" ++ "'' of done() with tag '" ++
        ("d" : String) ++ "'") :=
  claim_C6.1 { tag := "d" } "bogus" 1 (by decide) (by decide) (by decide)

/-- C8: `doError` is a no-op exactly on an already-`Error` state; from the
terminal `Aborted` state it proceeds, overwriting `mComplete` with `Error`
and setting the error message and tag — so `Aborted` can be replaced by
`Error` after the fact. -/
theorem claim_C8 :
    (∀ (s : LoopState) (msg tag : String) (nt : Bool),
        s.complete = ASYNC_COMPLETE_ERROR → doError s msg tag nt = Res.ok s) ∧
    (∀ (s : LoopState) (msg tag : String) (nt : Bool),
        s.complete = ASYNC_COMPLETE_ABORTED → tag ≠ "" → (findDone s.dones tag).isSome →
        ((doError s msg tag nt).state.complete = ASYNC_COMPLETE_ERROR ∧
         (doError s msg tag nt).state.errorTag = tag ∧
         (doError s msg tag nt).state.errorMsg = "done('" ++ tag ++ "'): " ++ msg)) ∧
    (∀ (s : LoopState) (msg : String) (nt : Bool),
        s.complete = ASYNC_COMPLETE_ABORTED →
        ((doError s msg "" nt).state.complete = ASYNC_COMPLETE_ERROR ∧
         (doError s msg "" nt).state.errorMsg = msg)) := by
  refine ⟨fun s msg tag nt h => ?_, fun s msg tag nt h htag hfind => ?_,
    fun s msg nt h => ?_⟩
  · simp [doError, h]
  · obtain ⟨it, hit⟩ := Option.isSome_iff_exists.mp hfind
    have hne : s.complete ≠ ASYNC_COMPLETE_ERROR := by
      rw [h]; decide
    simp only [doError, if_neg hne, if_pos htag]
    rw [show ({ s with complete := ASYNC_COMPLETE_ERROR } : LoopState).dones = s.dones from rfl,
      hit]
    cases nt <;> simp [Res.state]
  · have hne : s.complete ≠ ASYNC_COMPLETE_ERROR := by
      rw [h]; decide
    simp only [doError, if_neg hne]
    cases nt <;> simp [Res.state]

/-- C8 witness: from a concrete `Aborted` state with marker `"t"`, `doError`
overwrites the state to `Error` with the expected message and tag, while on
an `Error` state it is a no-op. -/
theorem claim_C8_witness :
    (doError c8err "m" "t" true = Res.ok c8err) ∧
    ((doError c8ab "boom" "t" true).state.complete = ASYNC_COMPLETE_ERROR ∧
     (doError c8ab "boom" "t" true).state.errorTag = "t" ∧
     (doError c8ab "boom" "t" true).state.errorMsg = "done('" ++ "t" ++ "'): " ++ "boom") ∧
    ((doError c8ab "plain" "" false).state.complete = ASYNC_COMPLETE_ERROR ∧
     (doError c8ab "plain" "" false).state.errorMsg = "plain") :=
  ⟨claim_C8.1 c8err "m" "t" true (by decide),
   claim_C8.2.1 c8ab "boom" "t" true (by decide) (by decide) (by decide),
   claim_C8.2.2 c8ab "plain" false (by decide)⟩

/-- C9: the validity check of `completeCodeToString` rejects exactly the
codes below 0 or above 3, yet the name array has exactly three entries, so
for the terminal code `ASYNC_COMPLETE_ABORTED = 3` the check passes and the
read indexes one element past the end of the array (`Except.ok none`)
instead of throwing or producing a valid name. -/
theorem claim_C9 :
    completeStrings.length = 3 ∧
    ASYNC_COMPLETE_ABORTED = 3 ∧
    completeCodeToString ASYNC_COMPLETE_ABORTED = Except.ok none ∧
    (∀ code : Int,
      completeCodeToString code = Except.error ("Invalid code value " ++ toString code) ↔
        code < 0 ∨ 3 < code) := by
  refine ⟨rfl, rfl, rfl, fun code => ?_⟩
  have hlen : ((completeStrings.length : Nat) : Int) = 3 := rfl
  unfold completeCodeToString
  rw [hlen]
  split
  · exact iff_of_true rfl (by omega)
  · exact iff_of_false (fun h => Except.noConfusion h) (by omega)

/-- C10: whenever the effective jitter percentage is positive but the delay
is small enough that `(delay * jitterPct) / 100` is 0 in integer arithmetic,
`schedCall` evaluates `rand() % (2*0)` — a modulo by zero, modelled as the
undefined-behaviour result `none`; the computation is guarded only by the
jitter percentage being nonzero, in both the positive-delay and the chained
(negative-delay) branch, e.g. at delay 1 (or -1) with `jitterPct` 50. -/
theorem claim_C10 :
    (∀ (s : LoopState) (cmds : List Cmd) (now : Ts) (r after pct : Int),
      0 ≤ after → 0 < pct → (after * pct) / 100 = 0 →
      schedCall s cmds now r after pct = none) ∧
    (∀ (s : LoopState) (cmds : List Cmd) (now : Ts) (r after pct : Int),
      after < 0 → 0 < pct → ((-after) * pct) / 100 = 0 →
      schedCall s cmds now r after pct = none) ∧
    (∀ (s : LoopState) (cmds : List Cmd) (now : Ts) (r : Int),
      schedCall s cmds now r 1 50 = none ∧ schedCall s cmds now r (-1) 50 = none) := by
  refine ⟨fun s cmds now r after pct h1 h2 h3 => ?_, fun s cmds now r after pct h1 h2 h3 => ?_,
    fun s cmds now r => ⟨?_, ?_⟩⟩
  · simp only [schedCall]
    rw [if_neg (by omega : ¬ pct < 0), if_neg (by omega : ¬ after < 0),
      if_pos (by omega : pct ≠ 0), if_pos h3]
  · simp only [schedCall]
    rw [if_neg (by omega : ¬ pct < 0), if_pos h1, if_pos (by omega : pct ≠ 0), if_pos h3]
  · simp only [schedCall]
    norm_num
  · simp only [schedCall]
    norm_num

/-- C10 witness: a delay of 1 ms (and of -1 ms) with 50% jitter reaches the
modulo-by-zero. -/
theorem claim_C10_witness :
    schedCall c4base [] 0 0 1 50 = none ∧ schedCall c4base [] 0 0 (-1) 50 = none :=
  ⟨(claim_C10.2.2 c4base [] 0 0).1, (claim_C10.2.2 c4base [] 0 0).2⟩

/-! ## The "Nothing to run" throw happens only at the entry of run() -/

theorem doError_not_nothing (s : LoopState) (msg tag : String) (nt : Bool) :
    (doError s msg tag nt).isNothingExn = false := by
  simp only [doError]
  repeat' split <;> try rfl

theorem doneFn_not_nothing (s : LoopState) (tag : String) :
    (doneFn s tag).isNothingExn = false := by
  simp only [doneFn]
  repeat' split <;> try first | rfl | exact doError_not_nothing ..

theorem timeoutHandler_not_nothing (s : LoopState) (tag : String) :
    (timeoutHandler s tag).isNothingExn = false := by
  simp only [timeoutHandler]
  repeat' split <;> try first | rfl | exact doError_not_nothing ..

theorem execCmd_not_nothing (s : LoopState) (c : Cmd) :
    (execCmd s c).isNothingExn = false := by
  cases c
  · exact doneFn_not_nothing ..
  · rfl

theorem execCmds_not_nothing (cs : List Cmd) (s : LoopState) :
    (execCmds s cs).isNothingExn = false := by
  induction cs generalizing s with
  | nil => rfl
  | cons c cs ih =>
    unfold execCmds
    cases hr : execCmd s c with
    | ok s1 => exact ih s1
    | exn e s1 =>
      have := execCmd_not_nothing s c
      rw [hr] at this
      exact this

theorem execAction_not_nothing (s : LoopState) (a : Action) :
    (execAction s a).isNothingExn = false := by
  cases a
  · exact timeoutHandler_not_nothing ..
  · exact execCmds_not_nothing ..

theorem runLoop_not_nothing (fuel : Nat) (s : LoopState) :
    (runLoop fuel s).isNothingExn = false := by
  induction fuel generalizing s with
  | zero => rfl
  | succ n ih =>
    unfold runLoop
    split
    · rfl
    split
    · rfl
    split
    · split
      · rfl
      · exact ih _
    · exact execAction_not_nothing ..

/-- C2 counterexample: the default-constructed loop has a registered marker
(`"_default"`, whose anchoring at run start would schedule a timeout item),
yet `run()` with no directly scheduled call still throws "Nothing to run",
because the emptiness check precedes the anchoring. -/
theorem claim_C2_counterexample :
    (mkEventLoop 2000).dones ≠ [] ∧
    run (mkEventLoop 2000) 0 = Res.exn Exn.nothingToRun (mkEventLoop 2000) := by
  exact ⟨by decide, by decide⟩

/-- C2 (amended): `run()` raises the "nothing to run" usage error exactly
when the sched queue is empty at entry.  Since the emptiness check precedes
the anchoring performed inside `run()`, markers merely present in the
registry (e.g. registered at construction) do not prevent the error; a
marker registered via `addDone()` does prevent it, because `addDone`
schedules the marker's timeout item immediately. -/
theorem claim_C2 :
    (∀ (s : LoopState) (now : Ts),
      (∃ s', run s now = Res.exn Exn.nothingToRun s') ↔ s.schedQueue = []) ∧
    ((addDone c2base { tag := "x" }).isOk = true ∧
     c2armed.schedQueue ≠ [] ∧
     ∀ (now : Ts) (s' : LoopState), run c2armed now ≠ Res.exn Exn.nothingToRun s') := by
  have hiff : ∀ (s : LoopState) (now : Ts),
      (∃ s', run s now = Res.exn Exn.nothingToRun s') ↔ s.schedQueue = [] := by
    intro s now
    constructor
    · rintro ⟨s', h⟩
      by_contra hne
      simp only [run] at h
      rw [if_neg hne] at h
      cases hm : runLoop (addAllDonesToLoop s now).schedQueue.length (addAllDonesToLoop s now) with
      | ok s2 => rw [hm] at h; exact Res.noConfusion h
      | exn e s2 =>
        rw [hm] at h
        injection h with h1 h2
        have hnn := runLoop_not_nothing (addAllDonesToLoop s now).schedQueue.length
          (addAllDonesToLoop s now)
        rw [hm, h1] at hnn
        exact Bool.noConfusion hnn
    · intro h
      exact ⟨s, by unfold run; rw [if_pos h]⟩
  refine ⟨hiff, by decide, by decide, fun now s' h => ?_⟩
  have : c2armed.schedQueue = [] := (hiff c2armed now).mp ⟨s', h⟩
  revert this
  decide

/-- C2 witness: the general characterization applied to the concrete
default-constructed loop with an empty queue. -/
theorem claim_C2_witness :
    ∃ s', run (mkEventLoop 2000) 123 = Res.exn Exn.nothingToRun s' :=
  (claim_C2.1 (mkEventLoop 2000) 123).mpr (by decide)

/-- `doError` with `noThrow` on a known tag from a not-yet-`Error` state:
records the Error state, message and tag, and marks the marker `Error`. -/
theorem doError_noThrow_found (s : LoopState) (msg tag : String) (it : DoneItem)
    (hc : s.complete ≠ ASYNC_COMPLETE_ERROR) (hf : findDone s.dones tag = some it)
    (ht : tag ≠ "") :
    doError s msg tag true = Res.ok
      { s with
        complete := ASYNC_COMPLETE_ERROR
        errorTag := tag
        errorMsg := "done('" ++ tag ++ "'): " ++ msg
        dones := updateDone s.dones tag
          (fun d => { d with complete := ASYNC_COMPLETE_ERROR }) } := by
  simp only [doError, if_neg hc, if_pos ht]
  rw [show ({ s with complete := ASYNC_COMPLETE_ERROR } : LoopState).dones = s.dones from rfl, hf]
  rfl

/-- C3: resolving an already-resolved marker records a TestFailure without
propagating an exception (the result is a normal return carrying the terminal
`Error` state with the marker as implicated tag, and `run()` then ends in
`Error`) — but the recorded message is the misspelled
"done() already resloved, can't resolve again", so it does not contain the
words "already resolved" the specification cites.  The second conjunct
evaluates the double-resolve scenario end to end. -/
theorem claim_C3 :
    (∀ (s : LoopState) (tag : String) (it : DoneItem),
      findDone s.dones tag = some it → it.complete ≠ 0 → tag ≠ "" →
      s.complete ≠ ASYNC_COMPLETE_ERROR →
      doneFn s tag = Res.ok
        { s with
          complete := ASYNC_COMPLETE_ERROR
          errorTag := tag
          errorMsg := "done('" ++ tag ++ "'): " ++ "done() already resloved, can't resolve again"
          dones := updateDone s.dones tag
            (fun d => { d with complete := ASYNC_COMPLETE_ERROR }) }) ∧
    ((run c3s0 0).isOk = true ∧
     (run c3s0 0).state.complete = ASYNC_COMPLETE_ERROR ∧
     (run c3s0 0).state.errorTag = "_default" ∧
     (run c3s0 0).state.errorMsg =
       "done('_default'): done() already resloved, can't resolve again" ∧
     strContainsSub (run c3s0 0).state.errorMsg "already resolved" = false ∧
     strContainsSub (run c3s0 0).state.errorMsg "already resloved" = true) := by
  refine ⟨fun s tag it hf hc ht hs => ?_, by decide, by decide, by decide, by decide,
    by decide, by decide⟩
  simp only [doneFn, hf]
  rw [if_pos hc]
  exact doError_noThrow_found s _ tag it hs hf ht

/-- C3 witness: the general double-resolve statement applied to a concrete
state whose `"t"` marker is already resolved. -/
theorem claim_C3_witness :
    doneFn { dones := [{ tag := "t", complete := ASYNC_COMPLETE_SUCCESS }] } "t" = Res.ok
      { dones := [{ tag := "t", complete := ASYNC_COMPLETE_ERROR }]
        complete := ASYNC_COMPLETE_ERROR
        errorTag := "t"
        errorMsg := "done('" ++ "t" ++ "'): done() already resloved, can't resolve again" } := by
  have h := claim_C3.1 { dones := [{ tag := "t", complete := ASYNC_COMPLETE_SUCCESS }] } "t"
    { tag := "t", complete := ASYNC_COMPLETE_SUCCESS } (by decide) (by decide) (by decide)
    (by decide)
  rw [h]
  decide

/-- C5: when a marker's timeout item fires while the marker is still Pending,
it records a test failure — terminal `Error` state, message
"done('tag'): Timeout" (containing the word "Timeout"), implicated tag the
marker's tag; if the marker is no longer Pending the fired item returns the
state unchanged.  The final conjuncts run the unresolved-marker scenario end
to end: `run()` terminates in the `Error` state. -/
theorem claim_C5 :
    (∀ (s : LoopState) (tag : String) (it : DoneItem),
      findDone s.dones tag = some it → it.complete = 0 → tag ≠ "" →
      s.complete ≠ ASYNC_COMPLETE_ERROR →
      timeoutHandler s tag = Res.ok
        { s with
          complete := ASYNC_COMPLETE_ERROR
          errorTag := tag
          errorMsg := "done('" ++ tag ++ "'): " ++ "Timeout"
          dones := updateDone s.dones tag
            (fun d => { d with complete := ASYNC_COMPLETE_ERROR }) }) ∧
    (∀ (s : LoopState) (tag : String) (it : DoneItem),
      findDone s.dones tag = some it → it.complete ≠ 0 →
      timeoutHandler s tag = Res.ok s) ∧
    ((run c5s0 0).isOk = true ∧
     (run c5s0 0).state.complete = ASYNC_COMPLETE_ERROR ∧
     (run c5s0 0).state.errorTag = "x" ∧
     strContainsSub (run c5s0 0).state.errorMsg "Timeout" = true ∧
     strContainsSub (run c5s0 0).state.errorMsg "x" = true) := by
  refine ⟨fun s tag it hf h0 ht hs => ?_, fun s tag it hf h0 => ?_,
    by decide, by decide, by decide, by decide, by decide⟩
  · simp only [timeoutHandler, hf]
    rw [if_neg (by simp [h0])]
    exact doError_noThrow_found s _ tag it hs hf ht
  · simp only [timeoutHandler, hf]
    rw [if_pos h0]

/-- C5 witness: the two general statements applied to concrete one-marker
states (pending and resolved). -/
theorem claim_C5_witness :
    (timeoutHandler { dones := [{ tag := "x" }] } "x" = Res.ok
      { dones := [{ tag := "x", complete := ASYNC_COMPLETE_ERROR }]
        complete := ASYNC_COMPLETE_ERROR
        errorTag := "x"
        errorMsg := "done('" ++ "x" ++ "'): " ++ "Timeout" }) ∧
    (timeoutHandler { dones := [{ tag := "x", complete := ASYNC_COMPLETE_SUCCESS }] } "x" =
      Res.ok { dones := [{ tag := "x", complete := ASYNC_COMPLETE_SUCCESS }] }) := by
  constructor
  · have h := claim_C5.1 { dones := [{ tag := "x" }] } "x" { tag := "x" }
      (by decide) (by decide) (by decide) (by decide)
    rw [h]
    decide
  · exact claim_C5.2.1 { dones := [{ tag := "x", complete := ASYNC_COMPLETE_SUCCESS }] } "x"
      { tag := "x", complete := ASYNC_COMPLETE_SUCCESS } (by decide) (by decide)

/-- C7: `abort()` sets the state to `Aborted` iff no terminal state was
reached yet (it is a no-op on any nonzero state); once the state is
`Aborted` at a loop iteration boundary, the `run()` loop exits immediately
without executing any queued item.  The final conjuncts run the concrete
abort-from-a-callback scenario: `run()` returns `Aborted`, the two pending
items (ids 1 and 2) are never executed (they remain queued and the
`"_default"` marker is still Pending). -/
theorem claim_C7 :
    (∀ s : LoopState, s.complete = 0 →
      abortLoop s = { s with complete := ASYNC_COMPLETE_ABORTED }) ∧
    (∀ s : LoopState, s.complete ≠ 0 → abortLoop s = s) ∧
    (∀ (fuel : Nat) (s : LoopState), s.complete = ASYNC_COMPLETE_ABORTED →
      runLoop fuel s = Res.ok s) ∧
    ((run c7s0 0).isOk = true ∧
     (run c7s0 0).state.complete = ASYNC_COMPLETE_ABORTED ∧
     (run c7s0 0).state.schedQueue.map SchedEntry.id = [1, 2] ∧
     (findDone (run c7s0 0).state.dones "_default").map DoneItem.complete = some 0) := by
  refine ⟨fun s h => ?_, fun s h => ?_, fun fuel s h => ?_,
    by decide, by decide, by decide, by decide⟩
  · unfold abortLoop
    rw [if_neg (by simp [h])]
  · unfold abortLoop
    rw [if_pos h]
  · cases fuel with
    | zero => rfl
    | succ n =>
      unfold runLoop
      rw [if_pos (by rw [h]; decide)]

/-- C7 witness: the general statements applied at concrete states. -/
theorem claim_C7_witness :
    (abortLoop { nextId := 0 } = { nextId := 0, complete := ASYNC_COMPLETE_ABORTED }) ∧
    (abortLoop c8err = c8err) ∧
    (runLoop 5 c8ab = Res.ok c8ab) := by
  refine ⟨?_, claim_C7.2.1 c8err (by decide), claim_C7.2.2.1 5 c8ab (by decide)⟩
  have h := claim_C7.1 { nextId := 0 } (by decide)
  rw [h]


/-! ## Ordered-resolution invariant development (C1) -/

/-! ## List-level helper lemmas -/

theorem findDone_mem {l : List DoneItem} {tag : String} {it : DoneItem}
    (h : findDone l tag = some it) : it ∈ l ∧ it.tag = tag := by
  induction l with
  | nil => exact absurd h (by simp [findDone])
  | cons d rest ih =>
    unfold findDone at h
    split at h
    · cases h
      exact ⟨List.mem_cons_self .., by assumption⟩
    · obtain ⟨h1, h2⟩ := ih h
      exact ⟨List.mem_cons_of_mem _ h1, h2⟩

theorem mem_updateDone {l : List DoneItem} {tag : String} {f : DoneItem → DoneItem}
    {x : DoneItem} (h : x ∈ updateDone l tag f) :
    x ∈ l ∨ ∃ y ∈ l, y.tag = tag ∧ x = f y := by
  induction l with
  | nil => exact absurd h (by simp [updateDone])
  | cons d rest ih =>
    unfold updateDone at h
    split at h
    · rcases List.mem_cons.mp h with h | h
      · exact Or.inr ⟨d, List.mem_cons_self .., by assumption, h⟩
      · exact Or.inl (List.mem_cons_of_mem _ h)
    · rcases List.mem_cons.mp h with h | h
      · exact Or.inl (h ▸ List.mem_cons_self ..)
      · rcases ih h with h | ⟨y, hy, hty, hxy⟩
        · exact Or.inl (List.mem_cons_of_mem _ h)
        · exact Or.inr ⟨y, List.mem_cons_of_mem _ hy, hty, hxy⟩

theorem map_tag_updateDone (l : List DoneItem) (tag : String) (f : DoneItem → DoneItem)
    (hf : ∀ y, (f y).tag = y.tag) :
    (updateDone l tag f).map DoneItem.tag = l.map DoneItem.tag := by
  induction l with
  | nil => rfl
  | cons d rest ih =>
    unfold updateDone
    split
    · simp [hf]
    · simp [ih]

theorem findDone_unique {l : List DoneItem} {tag : String} {it y : DoneItem}
    (hnd : (l.map DoneItem.tag).Nodup) (h : findDone l tag = some it)
    (hy : y ∈ l) (hty : y.tag = tag) : y = it := by
  induction l with
  | nil => exact absurd hy (by simp)
  | cons d rest ih =>
    unfold findDone at h
    rw [List.map_cons, List.nodup_cons] at hnd
    split at h
    · cases h
      rcases List.mem_cons.mp hy with rfl | hy'
      · rfl
      · exact absurd (hty ▸ List.mem_map_of_mem DoneItem.tag hy') (by
          rename_i hd
          rw [hd] at hnd
          exact hnd.1)
    · rcases List.mem_cons.mp hy with rfl | hy'
      · rename_i hd
        exact absurd hty hd
      · exact ih hnd.2 h hy'

theorem popEarliest_perm {q : List SchedEntry} {e : SchedEntry} {rest : List SchedEntry}
    (h : popEarliest q = some (e, rest)) : q.Perm (e :: rest) := by
  induction q generalizing e rest with
  | nil => exact absurd h (by simp [popEarliest])
  | cons x q ih =>
    unfold popEarliest at h
    split at h
    · cases h
      exact List.Perm.refl _
    · rename_i m rest' hsome
      split at h
      · cases h
        exact List.Perm.refl _
      · cases h
        exact ((ih hsome).cons x).trans (List.Perm.swap ..)

theorem mem_updateDone_nodup {l : List DoneItem} {tag : String} {f : DoneItem → DoneItem}
    {x : DoneItem} (hnd : (l.map DoneItem.tag).Nodup) (h : x ∈ updateDone l tag f) :
    (x ∈ l ∧ x.tag ≠ tag) ∨ ∃ y ∈ l, y.tag = tag ∧ x = f y := by
  induction l with
  | nil => exact absurd h (by simp [updateDone])
  | cons d rest ih =>
    rw [List.map_cons, List.nodup_cons] at hnd
    unfold updateDone at h
    split at h
    · rename_i hd
      rcases List.mem_cons.mp h with rfl | h'
      · exact Or.inr ⟨d, List.mem_cons_self .., hd, rfl⟩
      · refine Or.inl ⟨List.mem_cons_of_mem _ h', fun hx => ?_⟩
        exact hnd.1 (hd ▸ hx ▸ List.mem_map_of_mem DoneItem.tag h')
    · rename_i hd
      rcases List.mem_cons.mp h with rfl | h'
      · exact Or.inl ⟨List.mem_cons_self .., hd⟩
      · rcases ih hnd.2 h' with ⟨hm, ht⟩ | ⟨y, hy, hty, hxy⟩
        · exact Or.inl ⟨List.mem_cons_of_mem _ hm, ht⟩
        · exact Or.inr ⟨y, List.mem_cons_of_mem _ hy, hty, hxy⟩

theorem mem_eraseById {q : List SchedEntry} {i : Nat} {e : SchedEntry} :
    e ∈ eraseById q i ↔ e ∈ q ∧ e.id ≠ i := by
  simp [eraseById, List.mem_filter]

theorem nodup_eraseById {q : List SchedEntry} {i : Nat}
    (h : (q.map SchedEntry.id).Nodup) : ((eraseById q i).map SchedEntry.id).Nodup :=
  h.sublist ((List.filter_sublist q).map SchedEntry.id)

theorem popEarliest_none {q : List SchedEntry} (h : popEarliest q = none) : q = [] := by
  cases q with
  | nil => rfl
  | cons x rest =>
    unfold popEarliest at h
    split at h
    · exact absurd h (by simp)
    · split at h <;> exact absurd h (by simp)

theorem doError_ok_complete {s : LoopState} {msg tag : String} {nt : Bool} {s' : LoopState}
    (h : doError s msg tag nt = Res.ok s') : s'.complete = ASYNC_COMPLETE_ERROR := by
  simp only [doError] at h
  split at h
  · cases h
    assumption
  · split at h
    · split at h
      · exact absurd h (by simp [usageError])
      · split at h
        · cases h
          rfl
        · exact absurd h (by simp)
    · split at h
      · cases h
        rfl
      · exact absurd h (by simp)

theorem doError_ok_queue {s : LoopState} {msg tag : String} {nt : Bool} {s' : LoopState}
    (h : doError s msg tag nt = Res.ok s') : s'.schedQueue = s.schedQueue := by
  simp only [doError] at h
  split at h
  · cases h
    rfl
  · split at h
    · split at h
      · exact absurd h (by simp [usageError])
      · split at h
        · cases h
          rfl
        · exact absurd h (by simp)
    · split at h
      · cases h
        rfl
      · exact absurd h (by simp)

theorem inv_abortLoop {s : LoopState} (h : Inv s) : Inv (abortLoop s) := by
  unfold abortLoop
  split
  · exact h
  · rename_i hc
    push_neg at hc
    rcases h with h | hg
    · exact absurd (hc ▸ h) (by decide)
    · obtain ⟨g1, g2, g3, g4, g5, g6, g7, g8⟩ := hg
      exact Or.inr ⟨g1, fun hh => absurd (show ASYNC_COMPLETE_ABORTED = 0 from hh) (by decide),
        show ASYNC_COMPLETE_ABORTED ≠ ASYNC_COMPLETE_SUCCESS from by decide, g4, g5, g6, g7, g8⟩

theorem inv_doneFn {s : LoopState} {tag : String} {s' : LoopState}
    (hinv : Inv s) (h : doneFn s tag = Res.ok s') : Inv s' := by
  cases hfd : findDone s.dones tag with
  | none =>
    simp only [doneFn, hfd] at h
    exact absurd h (by simp [usageError])
  | some it =>
    simp only [doneFn, hfd] at h
    by_cases hc : it.complete ≠ 0
    · rw [if_pos hc] at h
      exact Or.inl (doError_ok_complete h)
    · push_neg at hc
      rw [if_neg (by simp [hc])] at h
      by_cases ho : it.order ≠ 0 ∧ it.order ≠ s.lastOrderedDoneNo + 1
      · rw [if_pos ho] at h
        exact Or.inl (doError_ok_complete h)
      · rw [if_neg ho] at h
        have hmem := findDone_mem hfd
        by_cases hz : it.order = 0
        · rw [if_neg (by simp [hz])] at h
          injection h with h
          subst h
          rcases hinv with hl | ⟨g1, g2, g3, g4, g5, g6, g7, g8⟩
          · exact Or.inl hl
          rw [Inv, Good]
          dsimp only
          refine Or.inr ⟨g1, g2, g3, ?_, nodup_eraseById g5, ?_, ?_, ?_⟩
          · rw [map_tag_updateDone s.dones tag
              (fun d => { d with complete := ASYNC_COMPLETE_SUCCESS }) (fun y => rfl)]
            exact g4
          · intro x hx
            rcases mem_updateDone_nodup g4 hx with ⟨hxl, _⟩ | ⟨y, hy, hty, rfl⟩
            · exact g6 x hxl
            · exact Or.inr rfl
          · intro x hx hco hxo
            rcases mem_updateDone_nodup g4 hx with ⟨hxl, _⟩ | ⟨y, hy, hty, rfl⟩
            · exact g7 x hxl hco hxo
            · have hyit : y = it := findDone_unique g4 hfd hy hty
              exact absurd (show y.order = 0 by rw [hyit, hz]) hxo
          · intro x hx hx0
            rcases mem_updateDone_nodup g4 hx with ⟨hxl, hxt⟩ | ⟨y, hy, hty, rfl⟩
            · obtain ⟨e, he, heid, heact⟩ := g8 x hxl hx0
              refine ⟨e, mem_eraseById.mpr ⟨he, fun hcontra => ?_⟩, heid, heact⟩
              obtain ⟨e2, he2, he2id, he2act⟩ := g8 it hmem.1 hc
              have hee : e = e2 :=
                List.inj_on_of_nodup_map g5 he he2 (hcontra.trans he2id.symm)
              rw [hee, he2act] at heact
              injection heact with htags
              exact hxt (htags ▸ hmem.2)
            · exact absurd (show ASYNC_COMPLETE_SUCCESS = 0 from hx0) (by decide)
        · have hord : it.order = s.lastOrderedDoneNo + 1 := by
            rcases not_and_or.mp ho with h1 | h1
            · exact absurd hz (by simpa using h1)
            · simpa using h1
          rw [if_pos hz] at h
          injection h with h
          subst h
          rcases hinv with hl | ⟨g1, g2, g3, g4, g5, g6, g7, g8⟩
          · exact Or.inl hl
          rw [Inv, Good]
          dsimp only
          refine Or.inr ⟨?_, g2, g3, ?_, nodup_eraseById g5, ?_, ?_, ?_⟩
          · show s.lastOrderedDoneNo + 1 = ((s.resolvedOrdered ++ [tag]).length : Int)
            rw [g1]
            simp
          · rw [map_tag_updateDone s.dones tag
              (fun d => { d with complete := ASYNC_COMPLETE_SUCCESS }) (fun y => rfl)]
            exact g4
          · intro x hx
            rcases mem_updateDone_nodup g4 hx with ⟨hxl, _⟩ | ⟨y, hy, hty, rfl⟩
            · exact g6 x hxl
            · exact Or.inr rfl
          · intro x hx hco hxo
            rcases mem_updateDone_nodup g4 hx with ⟨hxl, _⟩ | ⟨y, hy, hty, rfl⟩
            · obtain ⟨k, hk1, hk2⟩ := g7 x hxl hco hxo
              obtain ⟨hlt, _⟩ := List.get?_eq_some.mp hk2
              exact ⟨k, hk1, by rw [List.get?_append hlt, hk2]⟩
            · have hyit : y = it := findDone_unique g4 hfd hy hty
              refine ⟨s.resolvedOrdered.length, ?_, ?_⟩
              · show y.order = (s.resolvedOrdered.length : Int) + 1
                rw [hyit, hord, g1]
              · show (s.resolvedOrdered ++ [tag]).get? s.resolvedOrdered.length = some y.tag
                rw [List.get?_concat_length, hyit, hmem.2]
          · intro x hx hx0
            rcases mem_updateDone_nodup g4 hx with ⟨hxl, hxt⟩ | ⟨y, hy, hty, rfl⟩
            · obtain ⟨e, he, heid, heact⟩ := g8 x hxl hx0
              refine ⟨e, mem_eraseById.mpr ⟨he, fun hcontra => ?_⟩, heid, heact⟩
              obtain ⟨e2, he2, he2id, he2act⟩ := g8 it hmem.1 hc
              have hee : e = e2 :=
                List.inj_on_of_nodup_map g5 he he2 (hcontra.trans he2id.symm)
              rw [hee, he2act] at heact
              injection heact with htags
              exact hxt (htags ▸ hmem.2)
            · exact absurd (show ASYNC_COMPLETE_SUCCESS = 0 from hx0) (by decide)

theorem inv_execCmd {s : LoopState} {c : Cmd} {s' : LoopState}
    (hinv : Inv s) (h : execCmd s c = Res.ok s') : Inv s' := by
  cases c with
  | done tag => exact inv_doneFn hinv h
  | abort =>
    cases h
    exact inv_abortLoop hinv

theorem inv_execCmds {cs : List Cmd} {s s' : LoopState}
    (hinv : Inv s) (h : execCmds s cs = Res.ok s') : Inv s' := by
  induction cs generalizing s with
  | nil => cases h; exact hinv
  | cons c cs ih =>
    unfold execCmds at h
    cases hc : execCmd s c with
    | ok s1 =>
      rw [hc] at h
      exact ih (inv_execCmd hinv hc) h
    | exn e s1 =>
      rw [hc] at h
      exact absurd h (by simp)

theorem doneFn_ok_queue_len {s : LoopState} {tag : String} {s' : LoopState}
    (h : doneFn s tag = Res.ok s') : s'.schedQueue.length ≤ s.schedQueue.length := by
  cases hfd : findDone s.dones tag with
  | none =>
    simp only [doneFn, hfd] at h
    exact absurd h (by simp [usageError])
  | some it =>
    simp only [doneFn, hfd] at h
    have herase : (eraseById s.schedQueue it.schedItem).length ≤ s.schedQueue.length :=
      List.length_filter_le ..
    split at h
    · rw [doError_ok_queue h]
    · split at h
      · rw [doError_ok_queue h]
        exact herase
      · split at h
        · injection h with h
          subst h
          exact herase
        · injection h with h
          subst h
          exact herase

theorem execCmd_ok_queue_len {s : LoopState} {c : Cmd} {s' : LoopState}
    (h : execCmd s c = Res.ok s') : s'.schedQueue.length ≤ s.schedQueue.length := by
  cases c with
  | done tag => exact doneFn_ok_queue_len h
  | abort =>
    cases h
    unfold abortLoop
    split <;> exact le_refl _

theorem execCmds_ok_queue_len {cs : List Cmd} {s s' : LoopState}
    (h : execCmds s cs = Res.ok s') : s'.schedQueue.length ≤ s.schedQueue.length := by
  induction cs generalizing s with
  | nil => cases h; exact le_refl _
  | cons c cs ih =>
    unfold execCmds at h
    cases hc : execCmd s c with
    | ok s1 =>
      rw [hc] at h
      exact le_trans (ih h) (execCmd_ok_queue_len hc)
    | exn e s1 =>
      rw [hc] at h
      exact absurd h (by simp)

theorem timeoutHandler_ok_queue {s : LoopState} {tag : String} {s' : LoopState}
    (h : timeoutHandler s tag = Res.ok s') : s'.schedQueue = s.schedQueue := by
  cases hfd : findDone s.dones tag with
  | none =>
    simp only [timeoutHandler, hfd] at h
    exact doError_ok_queue h
  | some it =>
    simp only [timeoutHandler, hfd] at h
    split at h
    · cases h
      rfl
    · exact doError_ok_queue h

theorem inv_pop_user {s : LoopState} {e : SchedEntry} {rest : List SchedEntry} {cmds : List Cmd}
    (hinv : Inv s) (hpop : popEarliest s.schedQueue = some (e, rest))
    (hact : e.act = Action.user cmds) : Inv { s with schedQueue := rest } := by
  have hperm := popEarliest_perm hpop
  rcases hinv with hl | ⟨g1, g2, g3, g4, g5, g6, g7, g8⟩
  · exact Or.inl hl
  refine Or.inr ⟨g1, g2, g3, g4, ?_, g6, g7, ?_⟩
  · have : ((e :: rest).map SchedEntry.id).Nodup :=
      ((hperm.map SchedEntry.id).nodup_iff).mp g5
    exact (List.nodup_cons.mp this).2
  · intro x hx hx0
    obtain ⟨ex, hex, hexid, hexact⟩ := g8 x hx hx0
    rcases List.mem_cons.mp (hperm.mem_iff.mp hex) with rfl | hexr
    · rw [hact] at hexact
      exact absurd hexact (by simp)
    · exact ⟨ex, hexr, hexid, hexact⟩

theorem inv_pop_timeout {s : LoopState} {e : SchedEntry} {rest : List SchedEntry} {tag : String}
    {s' : LoopState} (hinv : Inv s) (hpop : popEarliest s.schedQueue = some (e, rest))
    (hact : e.act = Action.timeoutOf tag)
    (h : timeoutHandler { s with schedQueue := rest } tag = Res.ok s') : Inv s' := by
  have hperm := popEarliest_perm hpop
  cases hfd : findDone s.dones tag with
  | none =>
    simp only [timeoutHandler, hfd] at h
    exact Or.inl (doError_ok_complete h)
  | some m =>
    simp only [timeoutHandler, hfd] at h
    split at h
    · rename_i hm0
      cases h
      rcases hinv with hl | ⟨g1, g2, g3, g4, g5, g6, g7, g8⟩
      · exact Or.inl hl
      refine Or.inr ⟨g1, g2, g3, g4, ?_, g6, g7, ?_⟩
      · have : ((e :: rest).map SchedEntry.id).Nodup :=
          ((hperm.map SchedEntry.id).nodup_iff).mp g5
        exact (List.nodup_cons.mp this).2
      · intro x hx hx0
        obtain ⟨ex, hex, hexid, hexact⟩ := g8 x hx hx0
        rcases List.mem_cons.mp (hperm.mem_iff.mp hex) with rfl | hexr
        · rw [hact] at hexact
          injection hexact with htag
          have hxm : x = m := findDone_unique g4 hfd hx htag.symm
          exact absurd (hxm ▸ hx0) hm0
        · exact ⟨ex, hexr, hexid, hexact⟩
    · exact Or.inl (doError_ok_complete h)

theorem runLoop_inv (fuel : Nat) : ∀ (s s' : LoopState), Inv s → s.schedQueue.length ≤ fuel →
    runLoop fuel s = Res.ok s' → Inv s' ∧ (s'.complete = 0 → s'.schedQueue = []) := by
  induction fuel with
  | zero =>
    intro s s' hinv hlen hrun
    cases hrun
    exact ⟨hinv, fun _ => List.length_eq_zero.mp (Nat.le_zero.mp hlen)⟩
  | succ n ih =>
    intro s s' hinv hlen hrun
    unfold runLoop at hrun
    split at hrun
    · cases hrun
      rename_i hc
      exact ⟨hinv, fun h0 => absurd h0 hc⟩
    · rename_i hc
      push_neg at hc
      split at hrun
      · cases hrun
        rename_i hpop
        exact ⟨hinv, fun _ => popEarliest_none hpop⟩
      · rename_i e rest hpop
        have hperm := popEarliest_perm hpop
        have hrlen : rest.length ≤ n := by
          have := hperm.length_eq
          simp at this
          omega
        split at hrun
        · rename_i s1 hexec
          have hinv1 : Inv s1 := by
            cases hact : e.act with
            | timeoutOf tag =>
              rw [hact] at hexec
              exact inv_pop_timeout hinv hpop hact hexec
            | user cmds =>
              rw [hact] at hexec
              exact inv_execCmds (inv_pop_user hinv hpop hact) hexec
          have hlen1 : s1.schedQueue.length ≤ n := by
            cases hact : e.act with
            | timeoutOf tag =>
              rw [hact] at hexec
              rw [timeoutHandler_ok_queue hexec]
              exact hrlen
            | user cmds =>
              rw [hact] at hexec
              exact le_trans (execCmds_ok_queue_len hexec) hrlen
          split at hrun
          · cases hrun
            rename_i hmsg
            refine ⟨hinv1, fun h0 => ?_⟩
            rcases hinv1 with hl | hg
            · rw [h0] at hl
              exact absurd hl (by decide)
            · exact absurd (hg.2.1 h0) hmsg
          · exact ih s1 s' hinv1 hlen1 hrun
        · rename_i hne
          exact absurd hrun (hne s')

theorem schedHandler_fst_dones (s : LoopState) (a : Action) (ts : Ts) :
    ((schedHandler s a ts).1).dones = s.dones := by
  simp only [schedHandler]
  split <;> rfl

theorem schedHandler_fst_nextId (s : LoopState) (a : Action) (ts : Ts) :
    ((schedHandler s a ts).1).nextId = s.nextId + 1 := by
  simp only [schedHandler]
  split <;> rfl

theorem schedHandler_fst_complete (s : LoopState) (a : Action) (ts : Ts) :
    ((schedHandler s a ts).1).complete = s.complete := by
  simp only [schedHandler]
  split <;> rfl

theorem schedHandler_fst_errorMsg (s : LoopState) (a : Action) (ts : Ts) :
    ((schedHandler s a ts).1).errorMsg = s.errorMsg := by
  simp only [schedHandler]
  split <;> rfl

theorem schedHandler_fst_doneNo (s : LoopState) (a : Action) (ts : Ts) :
    ((schedHandler s a ts).1).lastOrderedDoneNo = s.lastOrderedDoneNo := by
  simp only [schedHandler]
  split <;> rfl

theorem schedHandler_fst_resolved (s : LoopState) (a : Action) (ts : Ts) :
    ((schedHandler s a ts).1).resolvedOrdered = s.resolvedOrdered := by
  simp only [schedHandler]
  split <;> rfl

theorem schedHandler_snd (s : LoopState) (a : Action) (ts : Ts) :
    (schedHandler s a ts).2 = s.nextId := rfl

theorem findDone_of_tagmem {l : List DoneItem} {t : String}
    (h : ∃ it ∈ l, it.tag = t) : ∃ it, findDone l t = some it ∧ it ∈ l ∧ it.tag = t := by
  induction l with
  | nil =>
    obtain ⟨it, hmem, _⟩ := h
    exact absurd hmem (by simp)
  | cons d rest ih =>
    by_cases hd : d.tag = t
    · exact ⟨d, by unfold findDone; rw [if_pos hd], List.mem_cons_self .., hd⟩
    · obtain ⟨it, hmem, htag⟩ := h
      rcases List.mem_cons.mp hmem with rfl | hmem'
      · exact absurd htag hd
      · obtain ⟨it', hfd, hm, ht⟩ := ih ⟨it, hmem', htag⟩
        exact ⟨it', by unfold findDone; rw [if_neg hd]; exact hfd,
          List.mem_cons_of_mem _ hm, ht⟩

theorem addDoneToLoop_found {s1 : LoopState} {t : String} {it1 : DoneItem}
    (hfd1 : findDone s1.dones t = some it1) :
    (addDoneToLoop s1 t).dones =
        updateDone s1.dones t (fun d => { d with schedItem := s1.nextId }) ∧
    (addDoneToLoop s1 t).schedQueue =
        s1.schedQueue ++ [⟨it1.deadline, s1.nextId, Action.timeoutOf t⟩] ∧
    (addDoneToLoop s1 t).nextId = s1.nextId + 1 ∧
    (addDoneToLoop s1 t).complete = s1.complete ∧
    (addDoneToLoop s1 t).errorMsg = s1.errorMsg ∧
    (addDoneToLoop s1 t).lastOrderedDoneNo = s1.lastOrderedDoneNo ∧
    (addDoneToLoop s1 t).resolvedOrdered = s1.resolvedOrdered := by
  simp only [addDoneToLoop, hfd1]
  refine ⟨?_, ?_, ?_, ?_, ?_, ?_, ?_⟩ <;>
    simp only [schedHandler_fst_dones, schedHandler_fst_schedQueue, schedHandler_fst_nextId,
      schedHandler_fst_complete, schedHandler_fst_errorMsg, schedHandler_fst_doneNo,
      schedHandler_fst_resolved, schedHandler_snd]

theorem updateDone_forall {l : List DoneItem} {tag : String} {f : DoneItem → DoneItem}
    {P : DoneItem → Prop} (hl : ∀ it ∈ l, P it) (hf : ∀ y ∈ l, P (f y)) :
    ∀ it ∈ updateDone l tag f, P it := by
  intro x hx
  rcases mem_updateDone hx with h | ⟨y, hy, _, rfl⟩
  · exact hl x h
  · exact hf y hy

theorem anchorDones_inv (now : Ts) (tags : List String) :
    ∀ (s : LoopState),
    (∀ it ∈ s.dones, it.complete = 0) →
    (s.dones.map DoneItem.tag).Nodup →
    (s.schedQueue.map SchedEntry.id).Nodup →
    (∀ e ∈ s.schedQueue, e.id < s.nextId) →
    (∀ t ∈ tags, t ∈ s.dones.map DoneItem.tag) →
    (∀ it ∈ s.dones, it.tag ∉ tags →
       ∃ e ∈ s.schedQueue, e.id = it.schedItem ∧ e.act = Action.timeoutOf it.tag) →
    ((∀ it ∈ (anchorDones now s tags).dones, it.complete = 0) ∧
     (anchorDones now s tags).dones.map DoneItem.tag = s.dones.map DoneItem.tag ∧
     ((anchorDones now s tags).schedQueue.map SchedEntry.id).Nodup ∧
     (∀ e ∈ (anchorDones now s tags).schedQueue, e.id < (anchorDones now s tags).nextId) ∧
     (∀ it ∈ (anchorDones now s tags).dones,
        ∃ e ∈ (anchorDones now s tags).schedQueue,
          e.id = it.schedItem ∧ e.act = Action.timeoutOf it.tag) ∧
     (anchorDones now s tags).complete = s.complete ∧
     (anchorDones now s tags).errorMsg = s.errorMsg ∧
     (anchorDones now s tags).lastOrderedDoneNo = s.lastOrderedDoneNo ∧
     (anchorDones now s tags).resolvedOrdered = s.resolvedOrdered) := by
  induction tags with
  | nil =>
    intro s h1 h2 h3 h4 h5 h6
    exact ⟨h1, rfl, h3, h4, fun it hit => h6 it hit (by simp), rfl, rfl, rfl, rfl⟩
  | cons t ts ih =>
    intro s h1 h2 h3 h4 h5 h6
    have htmem : t ∈ s.dones.map DoneItem.tag := h5 t (List.mem_cons_self ..)
    have hs1map : (updateDone s.dones t
          (shiftDeadline now)).map DoneItem.tag =
        s.dones.map DoneItem.tag :=
      map_tag_updateDone s.dones t _ (fun y => rfl)
    have hs1nodup : ((updateDone s.dones t (shiftDeadline now)).map DoneItem.tag).Nodup := by
      rw [hs1map]
      exact h2
    have hex : ∃ b ∈ updateDone s.dones t (shiftDeadline now), b.tag = t := by
      have ht' : t ∈ (updateDone s.dones t (shiftDeadline now)).map DoneItem.tag := by
        rw [hs1map]
        exact htmem
      obtain ⟨b, hb, hbt⟩ := List.mem_map.mp ht'
      exact ⟨b, hb, hbt⟩
    obtain ⟨it1, hfd1, hit1mem, hit1tag⟩ := findDone_of_tagmem hex
    have hfd1' : findDone ({ s with dones := updateDone s.dones t (shiftDeadline now) } : LoopState).dones t =
        some it1 := hfd1
    obtain ⟨hAdones, hAqueue, hAnext, hAcomp, hAmsg, hAno, hAres⟩ := addDoneToLoop_found hfd1'
    dsimp only at hAdones hAqueue hAnext hAcomp hAmsg hAno hAres
    simp only [anchorDones]
    have hs2map : (addDoneToLoop { s with dones := updateDone s.dones t (shiftDeadline now) } t).dones.map DoneItem.tag =
        s.dones.map DoneItem.tag := by
      rw [hAdones, map_tag_updateDone _ t (fun d => { d with schedItem := s.nextId })
        (fun y => rfl)]
      exact hs1map
    have hA1 : ∀ it ∈ (addDoneToLoop { s with dones := updateDone s.dones t (shiftDeadline now) } t).dones, it.complete = 0 := by
      rw [hAdones]
      refine updateDone_forall (updateDone_forall h1 (fun y _ => ?_)) (fun y hy => ?_)
      · exact h1 y (by assumption)
      · rcases mem_updateDone hy with h | ⟨z, hz, _, rfl⟩
        · exact h1 y h
        · exact h1 z hz
    have hA3 : ((addDoneToLoop { s with dones := updateDone s.dones t (shiftDeadline now) } t).schedQueue.map
          SchedEntry.id).Nodup := by
      rw [hAqueue, List.map_append]
      refine List.Nodup.append h3 (by simp) ?_
      intro a ha hb
      obtain ⟨e, he, hei⟩ := List.mem_map.mp ha
      simp only [List.map_cons, List.map_nil, List.mem_singleton] at hb
      subst hb
      exact absurd (h4 e he) (by rw [hei]; exact lt_irrefl _)
    have hA4 : ∀ e ∈ (addDoneToLoop { s with dones := updateDone s.dones t (shiftDeadline now) } t).schedQueue,
        e.id < (addDoneToLoop { s with dones := updateDone s.dones t (shiftDeadline now) } t).nextId := by
      rw [hAqueue, hAnext]
      intro e he
      rcases List.mem_append.mp he with he' | he'
      · exact Nat.lt_succ_of_lt (h4 e he')
      · rw [List.mem_singleton] at he'
        subst he'
        exact Nat.lt_succ_self _
    have hA5 : ∀ t' ∈ ts, t' ∈ (addDoneToLoop { s with dones := updateDone s.dones t (shiftDeadline now) } t).dones.map DoneItem.tag := by
      rw [hs2map]
      exact fun t' ht' => h5 t' (List.mem_cons_of_mem _ ht')
    have hA6 : ∀ it ∈ (addDoneToLoop { s with dones := updateDone s.dones t (shiftDeadline now) } t).dones, it.tag ∉ ts →
        ∃ e ∈ (addDoneToLoop { s with dones := updateDone s.dones t (shiftDeadline now) } t).schedQueue,
          e.id = it.schedItem ∧ e.act = Action.timeoutOf it.tag := by
      intro x hx hnotin
      rw [hAdones] at hx
      rcases mem_updateDone_nodup hs1nodup hx with ⟨hx', hxt⟩ | ⟨y, hy, hty, rfl⟩
      · rcases mem_updateDone_nodup h2 hx' with ⟨hx'', _⟩ | ⟨z, hz, htz, rfl⟩
        · have hxnot : x.tag ∉ t :: ts := by
            intro hxin
            rcases List.mem_cons.mp hxin with heq | hin
            · exact hxt heq
            · exact hnotin hin
          obtain ⟨e, he, heid, heact⟩ := h6 x hx'' hxnot
          exact ⟨e, by rw [hAqueue]; exact List.mem_append_left _ he, heid, heact⟩
        · exact absurd htz hxt
      · refine ⟨⟨it1.deadline, s.nextId, Action.timeoutOf t⟩, ?_, rfl, ?_⟩
        · rw [hAqueue]
          exact List.mem_append_right _ (List.mem_singleton_self _)
        · exact congrArg Action.timeoutOf hty.symm
    obtain ⟨C1, C2, C3, C4, C5, C6, C7, C8, C9⟩ :=
      ih (addDoneToLoop { s with dones := updateDone s.dones t (shiftDeadline now) } t)
        hA1 (by rw [hs2map]; exact h2) hA3 hA4 hA5 hA6
    refine ⟨C1, C2.trans hs2map, C3, C4, C5, ?_, ?_, ?_, ?_⟩
    · rw [C6, hAcomp]
    · rw [C7, hAmsg]
    · rw [C8, hAno]
    · rw [C9, hAres]

/-- C1: from any well-formed pre-run setup, `run()` reaches overall state
`Success` only if every marker with `order = k > 0` was literally the k-th
marker among the markers with nonzero order to resolve (position k of the
chronological resolution history `resolvedOrdered`); resolving an ordered
marker out of sequence records a TestFailure — terminal `Error` state, a
message stating the expected and the actual position, and the out-of-order
marker as implicated tag — without throwing, and `run()` then terminates in
the `Error` state, as the concrete b-before-a scenario shows end to end. -/
theorem claim_C1 :
    (∀ (s : LoopState) (now : Ts) (sf : LoopState),
      WellFormed s → run s now = Res.ok sf → sf.complete = ASYNC_COMPLETE_SUCCESS →
      ∀ it ∈ sf.dones, it.order ≠ 0 →
        it.complete = ASYNC_COMPLETE_SUCCESS ∧
        ∃ k : Nat, it.order = (k : Int) + 1 ∧ sf.resolvedOrdered.get? k = some it.tag) ∧
    (∀ (s : LoopState) (tag : String) (it : DoneItem),
      findDone s.dones tag = some it → it.complete = 0 → it.order ≠ 0 →
      it.order ≠ s.lastOrderedDoneNo + 1 → s.complete ≠ ASYNC_COMPLETE_ERROR → tag ≠ "" →
      ∃ s', doneFn s tag = Res.ok s' ∧
        s'.complete = ASYNC_COMPLETE_ERROR ∧ s'.errorTag = tag ∧
        s'.errorMsg = "done('" ++ tag ++ "'): " ++
          ("Did not resolve in expected order. Expected: " ++ toString it.order ++
           ", actual: " ++ toString (s.lastOrderedDoneNo + 1))) ∧
    ((run c1bad 0).isOk = true ∧
     (run c1bad 0).state.complete = ASYNC_COMPLETE_ERROR ∧
     (run c1bad 0).state.errorTag = "b" ∧
     (run c1bad 0).state.errorMsg =
       "done('b'): Did not resolve in expected order. Expected: 2, actual: 1") := by
  refine ⟨?_, ?_, by decide, by decide, by decide, by decide⟩
  · intro s now sf hwf hrun hsucc it hit hord
    obtain ⟨w1, w2, w3, w4, w5, w6, w7, w8⟩ := hwf
    simp only [run] at hrun
    split at hrun
    · exact absurd hrun (by simp)
    · obtain ⟨A1, A2, A3, A4, A5, A6, A7, A8, A9⟩ :=
        anchorDones_inv now (s.dones.map DoneItem.tag) s w5 w6 w8
          (fun e he => (w7 e he).2) (fun t ht => ht)
          (fun x hx hnot => absurd (List.mem_map_of_mem DoneItem.tag hx) hnot)
      have hgood : Good (addAllDonesToLoop s now) := by
        refine ⟨?_, ?_, ?_, ?_, A3, ?_, ?_, ?_⟩
        · rw [addAllDonesToLoop, A8, A9, w1, w2]
          rfl
        · intro _
          rw [addAllDonesToLoop, A7, w4]
        · rw [addAllDonesToLoop, A6, w3]
          decide
        · rw [addAllDonesToLoop, A2]
          exact w6
        · exact fun x hx => Or.inl (A1 x hx)
        · intro x hx hx1
          exact absurd (A1 x hx) (by rw [hx1]; decide)
        · intro x hx _
          exact A5 x hx
      rw [show (addAllDonesToLoop s now) = anchorDones now s (s.dones.map DoneItem.tag)
        from rfl] at hgood
      split at hrun
      · rename_i s2 hm
        injection hrun with hrun
        obtain ⟨hinv2, hqe⟩ := runLoop_inv _ _ s2 (Or.inr hgood) (le_refl _) hm
        by_cases hz : s2.complete = 0
        · rw [if_pos hz] at hrun
          subst hrun
          rcases hinv2 with hl | ⟨g1, g2, g3, g4, g5, g6, g7, g8⟩
          · rw [hz] at hl
            exact absurd hl (by decide)
          have hcomp : it.complete = ASYNC_COMPLETE_SUCCESS := by
            rcases g6 it hit with h0 | h1
            · obtain ⟨e, he, _⟩ := g8 it hit h0
              rw [hqe hz] at he
              exact absurd he (List.not_mem_nil e)
            · exact h1
          exact ⟨hcomp, g7 it hit hcomp hord⟩
        · rw [if_neg hz] at hrun
          subst hrun
          rcases hinv2 with hl | hg
          · rw [hsucc] at hl
            exact absurd hl (by decide)
          · exact absurd hsucc hg.2.2.1
      · rename_i hne
        exact absurd hrun (hne sf)
  · intro s tag it hfd hc hordnz hordne hsc htag
    have hde := doError_noThrow_found
      { s with schedQueue := eraseById s.schedQueue it.schedItem,
               lastOrderedDoneNo := s.lastOrderedDoneNo + 1 }
      ("Did not resolve in expected order. Expected: " ++ toString it.order ++
       ", actual: " ++ toString (s.lastOrderedDoneNo + 1)) tag it hsc hfd htag
    have heq : doneFn s tag = Res.ok
        { s with
          schedQueue := eraseById s.schedQueue it.schedItem
          lastOrderedDoneNo := s.lastOrderedDoneNo + 1
          complete := ASYNC_COMPLETE_ERROR
          errorTag := tag
          errorMsg := "done('" ++ tag ++ "'): " ++
            ("Did not resolve in expected order. Expected: " ++ toString it.order ++
             ", actual: " ++ toString (s.lastOrderedDoneNo + 1))
          dones := updateDone s.dones tag
            (fun d => { d with complete := ASYNC_COMPLETE_ERROR }) } := by
      simp only [doneFn, hfd]
      rw [if_neg (by simp [hc]), if_pos (⟨hordnz, hordne⟩ :
        it.order ≠ 0 ∧ it.order ≠ s.lastOrderedDoneNo + 1)]
      exact hde
    exact ⟨_, heq, rfl, rfl, rfl⟩


/-- C1 witness: the general statement applied to the concrete one-ordered-
marker run that succeeds: marker `"a"` with `order` 1 is the 1st ordered
marker to resolve. -/
theorem claim_C1_witness :
    c1aDone.complete = ASYNC_COMPLETE_SUCCESS ∧
    ∃ k : Nat, c1aDone.order = (k : Int) + 1 ∧
      (run c1good 0).state.resolvedOrdered.get? k = some c1aDone.tag :=
  claim_C1.1 c1good 0 ((run c1good 0).state) (by unfold WellFormed; decide) (by decide)
    (by decide) c1aDone (by decide) (by decide)

end AsyncTest
